import Mathlib

/-!
Verification of the question-evaluation response pipeline
(`app/api/analyze/route.ts`).

The TypeScript source is shallowly embedded: strings become `List Char`,
JavaScript numbers become `ℚ` (exact where the code only divides small
integers; `NaN` is represented by `none` in `Option`-valued results),
JSON values become an inductive type with an executable parser, and the
route handler becomes a total function into an explicit response type.
All recursion is structural (fuel-based where the source loops consume
input), so every definition evaluates by kernel reduction.
-/

/-! ## JavaScript string primitives -/

/-- JavaScript `\s` (the whitespace class used by `String.trim` and the
blank-line split regex): ASCII whitespace plus the Unicode space
separators, BOM and line/paragraph separators. -/
def isWs (c : Char) : Bool :=
  c.toNat == 0x20 || c.toNat == 0x09 || c.toNat == 0x0a || c.toNat == 0x0b ||
  c.toNat == 0x0c || c.toNat == 0x0d || c.toNat == 0xa0 || c.toNat == 0x1680 ||
  (0x2000 <= c.toNat && c.toNat <= 0x200a) ||
  c.toNat == 0x2028 || c.toNat == 0x2029 || c.toNat == 0x202f ||
  c.toNat == 0x205f || c.toNat == 0x3000 || c.toNat == 0xfeff

/-- JavaScript `String.prototype.trim`: strip `\s` characters from both
ends. -/
def trim (l : List Char) : List Char :=
  ((l.dropWhile isWs).reverse.dropWhile isWs).reverse

/-! ## Sanitizer (route.ts lines 27-28)

`txt.replace(/•/g, "-").replace(/[‘’]/g, "'").replace(/[“”]/g, '"')`.
Each regex matches a single character, so each global replace is a
character-wise map, applied in source order. -/

def repBullet (c : Char) : Char := if c = '•' then '-' else c

def repSingle (c : Char) : Char := if c = '‘' ∨ c = '’' then '\'' else c

def repDouble (c : Char) : Char := if c = '“' ∨ c = '”' then '"' else c

def sanitize (l : List Char) : List Char :=
  ((l.map repBullet).map repSingle).map repDouble

/-- The three replaces composed character-wise. -/
def sanitizeChar (c : Char) : Char := repDouble (repSingle (repBullet c))

/-! ## Segmenter (route.ts lines 30-33)

`set1.split(/\n\s*\n/).map(sanitize).filter(q => q.trim().length > 0)`.

The separator regex `\n\s*\n` matches, at a position holding `'\n'`, a
greedy run of whitespace followed by a final `'\n'`; with backtracking
the final `'\n'` is the last newline inside the maximal whitespace run
that follows the opening newline.  `String.split` scans left to right
for non-overlapping matches. -/

/-- Split a list after its last `'\n'`: returns the suffix that follows
the last newline, or `none` when the list has no newline. -/
def afterLastNl : List Char → Option (List Char)
  | [] => none
  | c :: rest =>
    match afterLastNl rest with
    | some r => some r
    | none => if c = '\n' then some rest else none

/-- At a position whose character was `'\n'`, try to complete a
`\n\s*\n` separator match against the remaining input `rest`: the
whitespace run after the opening newline must contain another newline.
Returns the input remaining after the full match. -/
def sepSplit (rest : List Char) : Option (List Char) :=
  match afterLastNl (rest.takeWhile isWs) with
  | some w2 => some (w2 ++ rest.dropWhile isWs)
  | none => none

/-- Worker for the split; `acc` is the current chunk, reversed.  Each
step consumes at least one character, so `fuel = length + 1` never runs
out (the fuel-exhaustion branch is unreachable). -/
def goSplit : Nat → List Char → List Char → List (List Char)
  | 0, l, acc => [acc.reverse ++ l]
  | _ + 1, [], acc => [acc.reverse]
  | fuel + 1, c :: rest, acc =>
    if c = '\n' then
      match sepSplit rest with
      | some rem => acc.reverse :: goSplit fuel rem []
      | none => goSplit fuel rest (c :: acc)
    else goSplit fuel rest (c :: acc)

/-- `set1.split(/\n\s*\n/)`. -/
def splitBlank (l : List Char) : List (List Char) :=
  goSplit (l.length + 1) l []

/-- The filter from line 33: `q.trim().length > 0`. -/
def keepQuestion (q : List Char) : Bool := decide (0 < (trim q).length)

/-- route.ts lines 30-33: the `questions` array. -/
def questions (set1 : List Char) : List (List Char) :=
  ((splitBlank set1).map sanitize).filter keepQuestion

/-! ## Response Extractor (route.ts lines 72-78)

`raw.replace(/```json/gi, "").replace(/```/g, "").trim()` followed by
`raw.match(/\[[\s\S]*\]/)`.  The fence patterns are fixed strings (the
`i` flag only affects the letters of `json`); a global replace scans
left to right, removing non-overlapping occurrences and continuing
after each match without rescanning the spliced result. -/

/-- Case-insensitive prefix match (pattern given in lower case):
returns the remaining input after the pattern when it matches. -/
def matchesCI : List Char → List Char → Option (List Char)
  | [], l => some l
  | _ :: _, [] => none
  | p :: ps, c :: cs => if c.toLower = p then matchesCI ps cs else none

/-- One global, case-insensitive replace-by-empty of a fixed pattern,
with fuel (`length + 1` suffices: each step consumes at least one
character). -/
def goReplace (pat : List Char) : Nat → List Char → List Char
  | 0, l => l
  | _ + 1, [] => []
  | fuel + 1, c :: cs =>
    match matchesCI pat (c :: cs) with
    | some rem => goReplace pat fuel rem
    | none => c :: goReplace pat fuel cs

def replaceAllCI (pat : List Char) (l : List Char) : List Char :=
  goReplace pat (l.length + 1) l

/-- The two fence patterns, lower-cased. -/
def patFenceJson : List Char := ['\x60', '\x60', '\x60', 'j', 's', 'o', 'n']

def patFence : List Char := ['\x60', '\x60', '\x60']

/-- Lines 72: remove ```json (case-insensitively), then ```, then trim. -/
def stripFences (raw : List Char) : List Char :=
  trim (replaceAllCI patFence (replaceAllCI patFenceJson raw))

/-- Split a list through its last `']'`: returns the prefix up to and
including the last `']'`, or `none` when there is none.  This is the
greedy `[\s\S]*\]` tail of the array regex. -/
def lastSplitAtClose : List Char → Option (List Char)
  | [] => none
  | c :: rest =>
    match lastSplitAtClose rest with
    | some p => some (c :: p)
    | none => if c = ']' then some [c] else none

/-- `raw.match(/\[[\s\S]*\]/)`: scan left to right; at an `'['`, the
greedy body backtracks to the last `']'` of the remaining input; if the
remaining input has no `']'`, the scan moves on. -/
def regexArrayMatch : List Char → Option (List Char)
  | [] => none
  | c :: rest =>
    if c = '[' then
      match lastSplitAtClose rest with
      | some p => some ('[' :: p)
      | none => regexArrayMatch rest
    else regexArrayMatch rest

/-- Lines 72-78: the candidate handed to `JSON.parse` — the
fence-stripped, trimmed text, replaced by the bracketed match when one
exists. -/
def extractCandidate (raw : List Char) : List Char :=
  match regexArrayMatch (stripFences raw) with
  | some m => m
  | none => stripFences raw

/-- The claim-language test for a bracketed array substring: some `'['`
with a `']'` somewhere after it.  (If the first `'['` has no `']'`
after it, no later `'['` does either.) -/
def hasBracketPair : List Char → Bool
  | [] => false
  | c :: rest => if c = '[' then decide (']' ∈ rest) else hasBracketPair rest

/-! ## JSON values and `JSON.parse` (route.ts line 82)

`JSON.parse` is the ECMAScript JSON grammar: a single value surrounded
by optional JSON whitespace (space, tab, LF, CR); objects keep the last
value for a duplicated key while the key keeps its first position;
numbers are decimal with optional fraction and exponent (modelled
exactly in `ℚ`); strings support the nine escapes and `\uXXXX` (code
points outside Lean's `Char` range degrade to the `Char.ofNat`
default, which no claim exercises).  A failed parse is `none` — the
`catch` branch of lines 81-89. -/

inductive JsValue where
  | null : JsValue
  | bool : Bool → JsValue
  | num : ℚ → JsValue
  | str : List Char → JsValue
  | arr : List JsValue → JsValue
  | obj : List (List Char × JsValue) → JsValue

def jsonWs (c : Char) : Bool :=
  c.toNat == 0x20 || c.toNat == 0x09 || c.toNat == 0x0a || c.toNat == 0x0d

def skipWs (l : List Char) : List Char := l.dropWhile jsonWs

def isHexDig (c : Char) : Bool :=
  c.isDigit || (0x61 ≤ c.toNat && c.toNat ≤ 0x66) || (0x41 ≤ c.toNat && c.toNat ≤ 0x46)

def hexVal (c : Char) : Nat :=
  if c.isDigit then c.toNat - 48
  else if 0x61 ≤ c.toNat then c.toNat - 87
  else c.toNat - 55

def escChar (c : Char) : Option Char :=
  if c = '"' then some '"'
  else if c = '\\' then some '\\'
  else if c = '/' then some '/'
  else if c = 'b' then some '\x08'
  else if c = 'f' then some '\x0c'
  else if c = 'n' then some '\n'
  else if c = 'r' then some '\r'
  else if c = 't' then some '\t'
  else none

/-- JSON string body after the opening quote: returns the decoded
characters and the input after the closing quote. -/
def parseStringBody : List Char → Option (List Char × List Char)
  | [] => none
  | '"' :: rest => some ([], rest)
  | '\\' :: 'u' :: a :: b :: c :: d :: rest =>
    if isHexDig a && isHexDig b && isHexDig c && isHexDig d then
      (parseStringBody rest).map fun p =>
        (Char.ofNat (hexVal a * 4096 + hexVal b * 256 + hexVal c * 16 + hexVal d) :: p.1, p.2)
    else none
  | '\\' :: e :: rest =>
    match escChar e with
    | some ch => (parseStringBody rest).map fun p => (ch :: p.1, p.2)
    | none => none
  | c :: rest =>
    if c.toNat < 0x20 then none
    else (parseStringBody rest).map fun p => (c :: p.1, p.2)

def digitsToNat (l : List Char) : Nat :=
  l.foldl (fun a c => a * 10 + (c.toNat - 48)) 0

/-- Optional `.digits` fraction part. -/
def parseFrac (l : List Char) : Option (ℚ × List Char) :=
  match l with
  | '.' :: r =>
    match r.takeWhile Char.isDigit with
    | [] => none
    | ds => some ((digitsToNat ds : ℚ) / ((10 : ℚ) ^ ds.length), r.dropWhile Char.isDigit)
  | _ => some (0, l)

/-- Body of the exponent part after the `e`/`E` marker. -/
def parseExpTail (q : ℚ) (r : List Char) : Option (ℚ × List Char) :=
  let (neg, r₁) :=
    match r with
    | '-' :: r2 => (true, r2)
    | '+' :: r2 => (false, r2)
    | _ => (false, r)
  match r₁.takeWhile Char.isDigit with
  | [] => none
  | ds =>
    let e := digitsToNat ds
    some (if neg then q / ((10 : ℚ) ^ e) else q * ((10 : ℚ) ^ e), r₁.dropWhile Char.isDigit)

/-- Optional `[eE][+-]?digits` exponent part, applied to the mantissa. -/
def parseExp (q : ℚ) (l : List Char) : Option (ℚ × List Char) :=
  match l with
  | 'e' :: r => parseExpTail q r
  | 'E' :: r => parseExpTail q r
  | _ => some (q, l)

/-- Fraction and exponent after the integer part of a number. -/
def parseNumTail (neg : Bool) (i : Nat) (r : List Char) : Option (ℚ × List Char) :=
  match parseFrac r with
  | none => none
  | some (f, r₂) =>
    match parseExp ((i : ℚ) + f) r₂ with
    | none => none
    | some (q, r₃) => some (if neg then -q else q, r₃)

/-- JSON number: `-? (0 | [1-9][0-9]*) frac? exp?`. -/
def parseNumber (l : List Char) : Option (ℚ × List Char) :=
  let (neg, l₁) :=
    match l with
    | '-' :: r => (true, r)
    | _ => (false, l)
  match l₁ with
  | '0' :: r => parseNumTail neg 0 r
  | c :: _ =>
    if c.isDigit && c ≠ '0' then
      parseNumTail neg (digitsToNat (l₁.takeWhile Char.isDigit)) (l₁.dropWhile Char.isDigit)
    else none
  | [] => none

/-- JS object insert: an existing key keeps its position but takes the
new value; a new key is appended. -/
def insertKV (m : List (List Char × JsValue)) (k : List Char) (v : JsValue) :
    List (List Char × JsValue) :=
  if m.any (fun p => p.1 = k) then
    m.map fun p => if p.1 = k then (k, v) else p
  else m ++ [(k, v)]

/-- Parser mode: a plain value, the items of an array after `[`, or the
members of an object after the opening brace. -/
inductive PMode where
  | val : PMode
  | arrItems : List JsValue → PMode
  | objItems : List (List Char × JsValue) → PMode

/-- The recursive JSON parser, structurally recursive on fuel.  Every
recursive call strictly decreases the fuel while consuming input, so
`2 * length + 2` fuel is enough for every parse that can succeed. -/
def parseCore : Nat → PMode → List Char → Option (JsValue × List Char)
  | 0, _, _ => none
  | fuel + 1, PMode.val, l =>
    match skipWs l with
    | [] => none
    | 'n' :: 'u' :: 'l' :: 'l' :: rest => some (JsValue.null, rest)
    | 't' :: 'r' :: 'u' :: 'e' :: rest => some (JsValue.bool true, rest)
    | 'f' :: 'a' :: 'l' :: 's' :: 'e' :: rest => some (JsValue.bool false, rest)
    | '"' :: rest => (parseStringBody rest).map fun p => (JsValue.str p.1, p.2)
    | '[' :: rest =>
      (match skipWs rest with
       | ']' :: rest₂ => some (JsValue.arr [], rest₂)
       | _ => parseCore fuel (PMode.arrItems []) rest)
    | '\x7b' :: rest =>
      (match skipWs rest with
       | '\x7d' :: rest₂ => some (JsValue.obj [], rest₂)
       | _ => parseCore fuel (PMode.objItems []) rest)
    | c :: rest =>
      if c = '-' || c.isDigit then
        (parseNumber (c :: rest)).map fun p => (JsValue.num p.1, p.2)
      else none
  | fuel + 1, PMode.arrItems acc, l =>
    match parseCore fuel PMode.val l with
    | none => none
    | some (v, rest) =>
      match skipWs rest with
      | ',' :: rest₂ => parseCore fuel (PMode.arrItems (v :: acc)) rest₂
      | ']' :: rest₂ => some (JsValue.arr (v :: acc).reverse, rest₂)
      | _ => none
  | fuel + 1, PMode.objItems acc, l =>
    match skipWs l with
    | '"' :: rest =>
      (match parseStringBody rest with
       | none => none
       | some (k, rest₂) =>
         match skipWs rest₂ with
         | ':' :: rest₃ =>
           (match parseCore fuel PMode.val rest₃ with
            | none => none
            | some (v, rest₄) =>
              match skipWs rest₄ with
              | ',' :: rest₅ => parseCore fuel (PMode.objItems (insertKV acc k v)) rest₅
              | '\x7d' :: rest₅ => some (JsValue.obj (insertKV acc k v), rest₅)
              | _ => none)
         | _ => none)
    | _ => none

/-- `JSON.parse`: one value, whole input consumed up to trailing JSON
whitespace. -/
def jsonParse (l : List Char) : Option JsValue :=
  match parseCore (2 * l.length + 2) PMode.val l with
  | some (v, rest) => if skipWs rest = [] then some v else none
  | none => none

/-! ## Aggregator (route.ts lines 91-133)

Evaluation records as consumed by the aggregation loop.  JavaScript
numbers are `ℚ`; a score field that is absent or not a number makes the
running total NaN, modelled as `none` (`Option ℚ`).  A falsy `bloom`
(missing, empty string, or non-string falsy value) is the empty list.
The `question` and `suggestions` fields are never read by the
aggregation and are omitted. -/

structure QEval where
  overallScore : Option ℚ
  spellingScore : Option ℚ
  grammarScore : Option ℚ
  clarityScore : Option ℚ
  bloom : List Char
  higherOrder : Bool
deriving DecidableEq

/-- `Math.round`: round to nearest, halves toward positive infinity. -/
def jsRound (x : ℚ) : Int := ⌊x + 1 / 2⌋

/-- NaN-propagating JS addition over number-or-NaN. -/
def jadd : Option ℚ → Option ℚ → Option ℚ
  | some a, some b => some (a + b)
  | _, _ => none

/-- The `forEach` accumulation of one score field (lines 99-104),
starting from `0`. -/
def sumField (f : QEval → Option ℚ) (evals : List QEval) : Option ℚ :=
  evals.foldl (fun acc q => jadd acc (f q)) (some 0)

/-- Lines 91-92: `evaluations.length ? Math.round(val / evaluations.length) : 0`.
NaN in, NaN out when the length is nonzero. -/
def jsAvg (n : Nat) (val : Option ℚ) : Option Int :=
  if n = 0 then some 0 else val.map fun v => jsRound (v / (n : ℚ))

/-- Line 108: `if (q.higherOrder) higherOrderCount++`. -/
def hoCount (evals : List QEval) : Nat :=
  evals.foldl (fun c q => if q.higherOrder then c + 1 else c) 0

/-! `bloomCounts` is a `Record<string, number>`: a plain object `\x7b\x7d`
used as a dictionary.  Own keys keep insertion order among themselves,
but `Object.entries` lists array-index-like keys first, in ascending
numeric order — that reordering is modelled in `objEntries`.

The dictionary model (`bumpCount`) does not capture the prototype
chain of the plain object: for a label that is an own property name of
`Object.prototype` the real first read `bloomCounts[k] || 0` returns an
inherited truthy value instead of `0` (so the stored count becomes a
string, and the `b[1] - a[1]` comparator then returns NaN on it), and
for `__proto__` the write hits the inherited accessor and is silently
discarded, so the label is never recorded at all.  The dictionary model
is therefore faithful only for labels that are not `Object.prototype`
member names (`isProtoKey`), and the C5 refinement theorem excludes
them by hypothesis alongside array-index-like labels. -/

abbrev BloomMap := List (List Char × Nat)

/-- Line 106: `bloomCounts[q.bloom] = (bloomCounts[q.bloom] || 0) + 1`. -/
def bumpCount (m : BloomMap) (k : List Char) : BloomMap :=
  if m.any (fun p => p.1 = k) then
    m.map fun p => if p.1 = k then (p.1, p.2 + 1) else p
  else m ++ [(k, 1)]

/-- Lines 99-109 restricted to the bloom tally: falsy labels are
skipped (`if (q.bloom)`). -/
def bloomCounts (evals : List QEval) : BloomMap :=
  evals.foldl (fun m q => if q.bloom = [] then m else bumpCount m q.bloom) []

/-- A canonical array-index string: `"0"`, or digits without a leading
zero whose value is below `2^32 - 1`. -/
def isArrayIdx (s : List Char) : Bool :=
  match s with
  | [] => false
  | c :: rest =>
    if c = '0' then rest.isEmpty
    else c.isDigit && rest.all Char.isDigit && decide (digitsToNat (c :: rest) < 4294967295)

/-! Own property names of `Object.prototype` (including the Annex-B
accessors, all present in Node): a plain object inherits exactly these
keys, so they are the labels on which the dictionary model of the
bloom tally is not faithful. -/

def pkConstructor : String := "constructor"

def pkHasOwnProperty : String := "hasOwnProperty"

def pkIsPrototypeOf : String := "isPrototypeOf"

def pkPropertyIsEnumerable : String := "propertyIsEnumerable"

def pkToLocaleString : String := "toLocaleString"

def pkToString : String := "toString"

def pkValueOf : String := "valueOf"

def pkProtoAccessor : String := "__proto__"

def pkDefineGetter : String := "__defineGetter__"

def pkDefineSetter : String := "__defineSetter__"

def pkLookupGetter : String := "__lookupGetter__"

def pkLookupSetter : String := "__lookupSetter__"

def protoKeys : List (List Char) :=
  [pkConstructor.data, pkHasOwnProperty.data, pkIsPrototypeOf.data,
   pkPropertyIsEnumerable.data, pkToLocaleString.data, pkToString.data,
   pkValueOf.data, pkProtoAccessor.data, pkDefineGetter.data,
   pkDefineSetter.data, pkLookupGetter.data, pkLookupSetter.data]

/-- A label inherited from `Object.prototype` by the plain object used
as the bloom tally. -/
def isProtoKey (s : List Char) : Bool :=
  protoKeys.any fun p => decide (p = s)

def insAscIdx (p : List Char × Nat) : BloomMap → BloomMap
  | [] => [p]
  | q :: rest =>
    if digitsToNat p.1 ≤ digitsToNat q.1 then p :: q :: rest else q :: insAscIdx p rest

def sortIdxAsc : BloomMap → BloomMap
  | [] => []
  | p :: rest => insAscIdx p (sortIdxAsc rest)

/-- `Object.entries` order: array-index keys first in ascending numeric
order, then the remaining keys in insertion order. -/
def objEntries (m : BloomMap) : BloomMap :=
  sortIdxAsc (m.filter fun p => isArrayIdx p.1) ++ m.filter fun p => !isArrayIdx p.1

/-- Stable insertion into a descending-by-count list: the new element
(earlier in the original array) goes before the first entry with a
count less than or equal to its own. -/
def insDesc (p : List Char × Nat) : BloomMap → BloomMap
  | [] => [p]
  | q :: rest => if q.2 ≤ p.2 then p :: q :: rest else q :: insDesc p rest

/-- `entries.sort((a, b) => b[1] - a[1])`: a stable sort (guaranteed by
the ECMAScript spec) by descending count. -/
def sortDesc : BloomMap → BloomMap
  | [] => []
  | p :: rest => insDesc p (sortDesc rest)

def naStr : List Char := ['N', '/', 'A']

/-- Lines 112-113: `Object.entries(bloomCounts).sort((a,b) => b[1]-a[1])[0]?.[0] || "N/A"`. -/
def mostCommonBloom (m : BloomMap) : List Char :=
  match sortDesc (objEntries m) with
  | [] => naStr
  | p :: _ => if p.1 = [] then naStr else p.1

def uc35 : String := "3 / 5"

def diffMed : String := "Medium"

/-- The response payload of lines 115-134.  `Option Int` metric scores:
`none` is NaN. -/
structure Report where
  totalScore : Option Int
  spelling : Option Int
  grammar : Option Int
  clarity : Option Int
  bloomLevel : List Char
  higherOrderPct : Option Int
  coMatch : Int
  syllabusMatch : Int
  unitCoverage : List Char
  difficulty : List Char
  evaluations : List QEval
deriving DecidableEq

/-- Lines 91-133: the aggregation.  The Higher Order metric divides by
`evaluations.length` without a guard, so with zero evaluations the JS
value is `Math.round((0/0)*100) = NaN`, i.e. `none`; with a nonzero
length the float arithmetic on these small integer counts is exact, so
`ℚ` is faithful. -/
def aggregate (evals : List QEval) : Report :=
  let n := evals.length
  { totalScore := jsAvg n (sumField QEval.overallScore evals)
    spelling := jsAvg n (sumField QEval.spellingScore evals)
    grammar := jsAvg n (sumField QEval.grammarScore evals)
    clarity := jsAvg n (sumField QEval.clarityScore evals)
    bloomLevel := mostCommonBloom (bloomCounts evals)
    higherOrderPct :=
      if n = 0 then none
      else some (jsRound (((hoCount evals : ℚ) / (n : ℚ)) * 100))
    coMatch := 70
    syllabusMatch := 75
    unitCoverage := uc35.data
    difficulty := diffMed.data
    evaluations := evals }

/-! ## From parsed JSON to the aggregation (route.ts lines 80-134)

`evaluations.forEach(q => ...)`: property access on a primitive number,
string or boolean yields `undefined` (no fault), but on `null` it
throws a `TypeError`, which the outer `catch` turns into the generic
failure; a non-array parse result has no `forEach` and throws the same
way.  A non-string truthy `bloom` value would be coerced to a string
key by JS; that coercion is not modelled (the label becomes falsy
here), and no claim exercises it. -/

def lookupKV : List (List Char × JsValue) → List Char → Option JsValue
  | [], _ => none
  | p :: rest, k => if p.1 = k then some p.2 else lookupKV rest k

/-- JS property read `v[k]`: own keys of objects; `undefined`
otherwise. -/
def getField (v : JsValue) (k : List Char) : Option JsValue :=
  match v with
  | JsValue.obj kvs => lookupKV kvs k
  | _ => none

def numField (v : JsValue) (k : List Char) : Option ℚ :=
  match getField v k with
  | some (JsValue.num q) => some q
  | _ => none

/-- JS truthiness of a JSON value (`NaN` cannot come out of
`JSON.parse`). -/
def jsTruthy : JsValue → Bool
  | JsValue.null => false
  | JsValue.bool b => b
  | JsValue.num q => decide (q ≠ 0)
  | JsValue.str s => !s.isEmpty
  | JsValue.arr _ => true
  | JsValue.obj _ => true

def kOverall : String := "overallScore"

def kSpelling : String := "spellingScore"

def kGrammar : String := "grammarScore"

def kClarity : String := "clarityScore"

def kBloom : String := "bloom"

def kHigherOrder : String := "higherOrder"

def evalOfJson (v : JsValue) : QEval :=
  { overallScore := numField v kOverall.data
    spellingScore := numField v kSpelling.data
    grammarScore := numField v kGrammar.data
    clarityScore := numField v kClarity.data
    bloom :=
      match getField v kBloom.data with
      | some (JsValue.str s) => s
      | _ => []
    higherOrder :=
      match getField v kHigherOrder.data with
      | some w => jsTruthy w
      | none => false }

def isNull : JsValue → Bool
  | JsValue.null => true
  | _ => false

/-- The four user-visible outcomes of the route: the success payload
and the four error responses of lines 21-24, 64-67, 85-88 and 137-140.
Every fault is one of these — nothing escapes the outer `try`. -/
inductive ApiResponse where
  | ok : Report → ApiResponse
  | invalidInput : ApiResponse
  | noResponse : ApiResponse
  | parseError : ApiResponse
  | serverError : ApiResponse
deriving DecidableEq

/-- Lines 80-134 applied to an extracted candidate string: a JSON
syntax error is caught at line 83 (`parseError`); a parse to anything
other than an array reaches `evaluations.forEach` and throws a
`TypeError` that the outer catch converts to the generic failure
(`serverError`), as does a `null` array element. -/
def processCandidate (cand : List Char) : ApiResponse :=
  match jsonParse cand with
  | none => ApiResponse.parseError
  | some (JsValue.arr xs) =>
    if xs.any isNull then ApiResponse.serverError
    else ApiResponse.ok (aggregate (xs.map evalOfJson))
  | some _ => ApiResponse.serverError

/-! ## Completion handling (route.ts lines 53-78)

The shape of the Evaluator's reply.  `Option` on each level models a
missing/undefined field, which is what the falsiness checks on line 62
test (`!completion || !completion.choices || !completion.choices[0].message`).
An *empty* `choices` array is truthy in JS, so it passes the guard and
`choices[0].message` then throws a `TypeError` — the generic failure. -/

structure Message where
  content : Option (List Char)

structure Choice where
  message : Option Message

structure Completion where
  choices : Option (List Choice)

def emptyArrStr : String := "[]"

/-- Line 71: `completion.choices[0].message?.content || "[]"` — a
missing or empty content string is replaced by the literal `"[]"`. -/
def contentToRaw (content : Option (List Char)) : List Char :=
  match content with
  | none => emptyArrStr.data
  | some s => if s = [] then emptyArrStr.data else s

def processMessage (m : Message) : ApiResponse :=
  processCandidate (extractCandidate (contentToRaw m.content))

/-- Lines 62-134: everything after the Evaluator call returns. -/
def processCompletion (comp : Option Completion) : ApiResponse :=
  match comp with
  | none => ApiResponse.noResponse
  | some c =>
    match c.choices with
    | none => ApiResponse.noResponse
    | some [] => ApiResponse.serverError
    | some (ch :: _) =>
      match ch.message with
      | none => ApiResponse.noResponse
      | some m => processMessage m

/-- A request-body field as the validation on lines 15-25 sees it:
either a string or anything else (missing, number, object, ...). -/
inductive JsField where
  | str : List Char → JsField
  | nonString : JsField

/-- The POST handler, from the parsed request body onward.  The
Evaluator is an external collaborator: its reply is the `comp`
argument, and the returned flag records whether the outbound call was
made.  Validation failure returns before the call (lines 15-25). -/
def runPost (outcomes syllabus set1 : JsField) (comp : Option Completion) :
    ApiResponse × Bool :=
  match outcomes, syllabus, set1 with
  | JsField.str _, JsField.str _, JsField.str _ => (processCompletion comp, true)
  | _, _, _ => (ApiResponse.invalidInput, false)

/-! ## The spec-side dominant-bloom rule (for the C5 comparison)

The spec describes the dominant label as the label with the highest
count, ties broken by the first-encountered label, `"N/A"` when no
label was counted.  `fmGo` keeps the current best and only replaces it
on a strictly larger count. -/

def fmGo (best : List Char × Nat) : BloomMap → List Char × Nat
  | [] => best
  | q :: rest => if best.2 < q.2 then fmGo q rest else fmGo best rest

/-- First-encountered maximum-count label, `"N/A"` on an empty tally —
the tie-breaking rule as the spec words it. -/
def firstMaxLabel : BloomMap → List Char
  | [] => naStr
  | p :: rest => (fmGo p rest).1

/-! ## Further definitions used by the claim statements -/

def isJsArr : JsValue → Bool
  | JsValue.arr _ => true
  | _ => false

/-- The exact per-field sum the spec describes: missing values read as
`0` (the claims only apply this under an all-numeric hypothesis). -/
def sumVals (f : QEval → Option ℚ) (evals : List QEval) : ℚ :=
  (evals.map fun q => (f q).getD 0).sum

/-! Concrete inputs used by witnesses and counterexamples. -/

def c4ex : String := "  a"

def c7in : String := "Sure! \x60\x60\x60json\n[\x7b\"a\":1\x7d]\n\x60\x60\x60 Thanks"

def c7out : String := "[\x7b\"a\":1\x7d]"

def c7a : String := "Sure! \n"

def c7b : String := "\x7b\"a\":1\x7d"

def c7c : String := "\n Thanks"

def c8ex : String := "no array here"

def c3bad : String := "[\x7bbad json"

def c3five : String := "5"

def c2comp : Option Completion :=
  some { choices := some [{ message := some { content := none } }] }

def bloomApply : String := "Apply"

def c5b : QEval :=
  { overallScore := some 0, spellingScore := some 0, grammarScore := some 0,
    clarityScore := some 0, bloom := ['b'], higherOrder := false }

def c5two : QEval :=
  { overallScore := some 0, spellingScore := some 0, grammarScore := some 0,
    clarityScore := some 0, bloom := ['2'], higherOrder := false }

def c6e1 : QEval :=
  { overallScore := some 80, spellingScore := some 90, grammarScore := some 85,
    clarityScore := some 75, bloom := bloomApply.data, higherOrder := true }

def c6e2 : QEval :=
  { overallScore := some 60, spellingScore := some 70, grammarScore := some 65,
    clarityScore := some 55, bloom := bloomApply.data, higherOrder := false }

def c6evals : List QEval := [c6e1, c6e2]

/-! ## Supporting lemmas -/

theorem sanitize_eq_map (l : List Char) : sanitize l = l.map sanitizeChar := by
  simp [sanitize, sanitizeChar, List.map_map]

lemma sanitizeChar_idem (c : Char) : sanitizeChar (sanitizeChar c) = sanitizeChar c := by
  by_cases h1 : c = '•'
  · subst h1; decide
  by_cases h2 : c = '‘'
  · subst h2; decide
  by_cases h3 : c = '’'
  · subst h3; decide
  by_cases h4 : c = '“'
  · subst h4; decide
  by_cases h5 : c = '”'
  · subst h5; decide
  have hc : sanitizeChar c = c := by
    simp [sanitizeChar, repBullet, repSingle, repDouble, h1, h2, h3, h4, h5]
  rw [hc, hc]

lemma lastSplitAtClose_eq_none (l : List Char) (h : ']' ∉ l) :
    lastSplitAtClose l = none := by
  induction l with
  | nil => rfl
  | cons c rest ih =>
    have hc : c ≠ ']' := fun hh => h (hh ▸ List.mem_cons_self c rest)
    have hr : ']' ∉ rest := fun hh => h (List.mem_cons_of_mem c hh)
    simp [lastSplitAtClose, ih hr, hc]

lemma lastSplitAtClose_last (b c : List Char) (h : ']' ∉ c) :
    lastSplitAtClose (b ++ ']' :: c) = some (b ++ [']']) := by
  induction b with
  | nil => simp [lastSplitAtClose, lastSplitAtClose_eq_none c h]
  | cons x b' ih => simp [lastSplitAtClose, ih]

lemma regexArrayMatch_skip (a r : List Char) (ha : '[' ∉ a) :
    regexArrayMatch (a ++ '[' :: r) =
      match lastSplitAtClose r with
      | some p => some ('[' :: p)
      | none => regexArrayMatch r := by
  induction a with
  | nil => simp [regexArrayMatch]
  | cons x a' ih =>
    have hx : x ≠ '[' := fun hh => ha (hh ▸ List.mem_cons_self x a')
    have ha' : '[' ∉ a' := fun hh => ha (List.mem_cons_of_mem x hh)
    simp [regexArrayMatch, hx, ih ha']

lemma hasBracketPair_of_no_close (l : List Char) (h : ']' ∉ l) :
    hasBracketPair l = false := by
  induction l with
  | nil => rfl
  | cons c rest ih =>
    have hr : ']' ∉ rest := fun hh => h (List.mem_cons_of_mem c hh)
    by_cases hc : c = '['
    · simp [hasBracketPair, hc, hr]
    · simp [hasBracketPair, hc, ih hr]

lemma regexArrayMatch_eq_none (l : List Char) (h : hasBracketPair l = false) :
    regexArrayMatch l = none := by
  induction l with
  | nil => rfl
  | cons c rest ih =>
    by_cases hc : c = '['
    · subst hc
      have hno : ']' ∉ rest := by
        intro hmem
        have : hasBracketPair ('[' :: rest) = true := by
          simp [hasBracketPair, hmem]
        simp [this] at h
      have h1 := lastSplitAtClose_eq_none rest hno
      have h2 := ih (hasBracketPair_of_no_close rest hno)
      simp [regexArrayMatch, h1, h2]
    · have h' : hasBracketPair rest = false := by
        simpa [hasBracketPair, hc] using h
      simp [regexArrayMatch, hc, ih h']

lemma sumField_some (f : QEval → Option ℚ) :
    ∀ (l : List QEval) (init : ℚ), (∀ q ∈ l, (f q).isSome) →
      l.foldl (fun acc q => jadd acc (f q)) (some init) =
        some (init + (l.map fun q => (f q).getD 0).sum) := by
  intro l
  induction l with
  | nil => intro init _; simp
  | cons q rest ih =>
    intro init h
    obtain ⟨x, hx⟩ := Option.isSome_iff_exists.mp (h q (List.mem_cons_self q rest))
    have hr : ∀ p ∈ rest, (f p).isSome := fun p hp => h p (List.mem_cons_of_mem q hp)
    have step : jadd (some init) (f q) = some (init + x) := by rw [hx]; rfl
    calc (q :: rest).foldl (fun acc q => jadd acc (f q)) (some init)
        = rest.foldl (fun acc q => jadd acc (f q)) (some (init + x)) := by
          simp [List.foldl_cons, step]
      _ = some (init + x + (rest.map fun p => (f p).getD 0).sum) := ih (init + x) hr
      _ = some (init + ((q :: rest).map fun p => (f p).getD 0).sum) := by
          simp [hx, add_assoc]

lemma jsAvg_sumField (f : QEval → Option ℚ) (evals : List QEval)
    (hne : evals ≠ []) (h : ∀ q ∈ evals, (f q).isSome) :
    jsAvg evals.length (sumField f evals) =
      some (jsRound (sumVals f evals / (evals.length : ℚ))) := by
  have hs : sumField f evals = some (sumVals f evals) := by
    have := sumField_some f evals 0 h
    simpa [sumField, sumVals] using this
  have hn : evals.length ≠ 0 := fun h0 => hne (List.length_eq_zero.mp h0)
  rw [hs]
  simp [jsAvg, hn]

lemma fmGo_cons (p q : List Char × Nat) (rs : BloomMap) :
    fmGo p (q :: rs) = if (fmGo q rs).2 ≤ p.2 then p else fmGo q rs := by
  induction rs generalizing p q with
  | nil =>
    simp only [fmGo]
    by_cases h : p.2 < q.2
    · rw [if_pos h, if_neg (by omega)]
    · rw [if_neg h, if_pos (by omega)]
  | cons s ss ih =>
    rw [show fmGo p (q :: s :: ss) =
          if p.2 < q.2 then fmGo q (s :: ss) else fmGo p (s :: ss) from rfl]
    rw [ih q s, ih p s]
    split_ifs <;> first | rfl | omega

lemma sortDesc_cons (p : List Char × Nat) (rest : BloomMap) :
    ∃ t, sortDesc (p :: rest) = fmGo p rest :: t := by
  induction rest generalizing p with
  | nil => exact ⟨[], rfl⟩
  | cons q rs ih =>
    obtain ⟨t₀, ht₀⟩ := ih q
    rw [show sortDesc (p :: q :: rs) = insDesc p (sortDesc (q :: rs)) from rfl, ht₀,
      fmGo_cons p q rs]
    by_cases h : (fmGo q rs).2 ≤ p.2
    · rw [if_pos h]
      exact ⟨fmGo q rs :: t₀, by simp [insDesc, h]⟩
    · rw [if_neg h]
      exact ⟨insDesc p t₀, by simp [insDesc, h]⟩

lemma fmGo_mem (p : List Char × Nat) (l : BloomMap) : fmGo p l ∈ p :: l := by
  induction l generalizing p with
  | nil => simp [fmGo]
  | cons q rs ih =>
    by_cases h : p.2 < q.2
    · simp only [fmGo, if_pos h]
      exact List.mem_cons_of_mem p (ih q)
    · simp only [fmGo, if_neg h]
      rcases List.mem_cons.mp (ih p) with h' | h'
      · rw [h']; exact List.mem_cons_self _ _
      · exact List.mem_cons_of_mem p (List.mem_cons_of_mem q h')

lemma bumpCount_key (m : BloomMap) (k : List Char) :
    ∀ p ∈ bumpCount m k, p.1 = k ∨ p ∈ m := by
  intro p hp
  by_cases hc : (m.any fun p => p.1 = k) = true
  · rw [bumpCount, if_pos hc] at hp
    obtain ⟨q, hq, hqp⟩ := List.mem_map.mp hp
    by_cases hk : q.1 = k
    · left; rw [← hqp, if_pos hk]; exact hk
    · right; rw [← hqp, if_neg hk]; exact hq
  · rw [bumpCount, if_neg hc] at hp
    rcases List.mem_append.mp hp with h' | h'
    · right; exact h'
    · left; rw [List.mem_singleton.mp h']

lemma bloomCounts_fold_inv (P : List Char → Prop) :
    ∀ (evals : List QEval) (m : BloomMap),
      (∀ p ∈ m, P p.1) → (∀ q ∈ evals, q.bloom ≠ [] → P q.bloom) →
      ∀ p ∈ evals.foldl
          (fun m q => if q.bloom = [] then m else bumpCount m q.bloom) m,
        P p.1 := by
  intro evals
  induction evals with
  | nil => intro m hm _ p hp; exact hm p hp
  | cons q rest ih =>
    intro m hm hq p hp
    rw [List.foldl_cons] at hp
    refine ih _ ?_ (fun r hr hb => hq r (List.mem_cons_of_mem q hr) hb) p hp
    by_cases hb : q.bloom = []
    · rw [if_pos hb]; exact hm
    · rw [if_neg hb]
      intro r hr
      rcases bumpCount_key m q.bloom r hr with h' | h'
      · rw [h']; exact hq q (List.mem_cons_self q rest) hb
      · exact hm r h'

lemma objEntries_id (m : BloomMap) (h : ∀ p ∈ m, isArrayIdx p.1 = false) :
    objEntries m = m := by
  have h1 : (m.filter fun p => isArrayIdx p.1) = [] := by
    rw [List.filter_eq_nil_iff]
    intro p hp
    simp [h p hp]
  have h2 : (m.filter fun p => !isArrayIdx p.1) = m := by
    rw [List.filter_eq_self]
    intro p hp
    simp [h p hp]
  simp [objEntries, h1, h2, sortIdxAsc]

lemma jsRound_div_eq (x : ℚ) (a : ℤ) (b : ℕ) (h : x + 1 / 2 = (a : ℚ) / (b : ℚ)) :
    jsRound x = a / (b : ℤ) := by
  unfold jsRound
  rw [h, Rat.floor_intCast_div_natCast]

/-! ## Claims -/

/-- Claim C10: the sanitizer is idempotent — `sanitize (sanitize x) =
sanitize x` for every input; it is a pure total function (totality is
by construction).  Each replace only introduces `-`, `'` and `"`,
none of which any of the three replaces matches again. -/
theorem c10_thm (x : List Char) : sanitize (sanitize x) = sanitize x := by
  induction x with
  | nil => rfl
  | cons c rest ih =>
    show sanitizeChar (sanitizeChar c) :: sanitize (sanitize rest) =
      sanitizeChar c :: sanitize rest
    rw [sanitizeChar_idem, ih]

/-- Claim C4, counterexample: the segmenter does *not* trim the chunks
it returns.  For the input `"  a"` the single returned question is the
untrimmed `"  a"`, whereas the claim promises every returned chunk
trimmed of surrounding whitespace. -/
theorem c4_counterexample :
    questions c4ex.data = [c4ex.data] ∧ trim c4ex.data ≠ c4ex.data := by
  constructor
  · rfl
  · decide

/-- Claim C4, amended: the segmenter splits on blank-line separators
and returns the sanitized chunks *untrimmed*; chunks that are empty
after trimming are dropped and order is preserved (the result is a
sublist of the sanitized split), and consequently no returned question
is empty or purely whitespace. -/
theorem c4_amended (s : List Char) :
    List.Sublist (questions s) ((splitBlank s).map sanitize) ∧
    ∀ q ∈ questions s, trim q ≠ [] := by
  constructor
  · exact List.filter_sublist _
  · intro q hq
    have hk : keepQuestion q = true := List.of_mem_filter hq
    have hlen : 0 < (trim q).length := of_decide_eq_true hk
    exact List.length_pos.mp hlen

/-- Claim C4, witness: the amended theorem applied to the concrete
input `"  a"`, whose single returned question is not whitespace-only. -/
theorem c4_witness : trim c4ex.data ≠ [] :=
  (c4_amended c4ex.data).2 c4ex.data (by decide)

/-- Claim C1, counterexample: with zero evaluations the Higher Order
metric is `Math.round((0/0) * 100) = NaN` (`none`), not `0` — the
division on line 122 is not guarded, contrary to the claim that every
numeric metric is `0` and none is NaN. -/
theorem c1_counterexample :
    (aggregate []).higherOrderPct = none ∧
    (aggregate []).higherOrderPct ≠ some 0 := by
  decide

/-- Claim C1, amended: with zero evaluations the four *averaged*
metrics (Spelling, Grammar, Clarity, totalScore) are `0` — the `avg`
helper guards its division — and Bloom Level is `"N/A"`; but the
Higher Order percentage is NaN (`none`), not `0`. -/
theorem c1_amended :
    (aggregate []).totalScore = some 0 ∧ (aggregate []).spelling = some 0 ∧
    (aggregate []).grammar = some 0 ∧ (aggregate []).clarity = some 0 ∧
    (aggregate []).bloomLevel = naStr ∧ (aggregate []).higherOrderPct = none := by
  decide

/-- Claim C9: whenever any of `outcomes`, `syllabus`, `set1` is missing
or not a string, the route returns the input-validation error and the
Evaluator is never invoked — the result is independent of the
completion argument and the invocation flag is `false`. -/
theorem c9_thm (a b c : JsField)
    (h : a = JsField.nonString ∨ b = JsField.nonString ∨ c = JsField.nonString)
    (comp : Option Completion) :
    runPost a b c comp = (ApiResponse.invalidInput, false) := by
  rcases h with h | h | h
  · subst h; cases b <;> cases c <;> rfl
  · subst h; cases a <;> cases c <;> rfl
  · subst h; cases a <;> cases b <;> rfl

/-- Claim C9, witness: a request with a non-string `outcomes` field is
rejected without consulting the Evaluator. -/
theorem c9_witness :
    runPost JsField.nonString (JsField.str []) (JsField.str []) none =
      (ApiResponse.invalidInput, false) :=
  c9_thm _ _ _ (Or.inl rfl) none

/-- Claim C7: when the fence-stripped, trimmed text decomposes as
`a ++ '[' :: b ++ ']' :: c` with no `'['` in `a` (so the `'['` shown is
the first) and no `']'` in `c` (so the `']'` shown is the last), the
extractor returns exactly the greedy match from that first `'['` to
that last `']'`, discarding the surrounding prose. -/
theorem c7_thm (s a b c : List Char)
    (h : stripFences s = a ++ '[' :: (b ++ ']' :: c))
    (ha : '[' ∉ a) (hc : ']' ∉ c) :
    extractCandidate s = '[' :: (b ++ [']']) := by
  unfold extractCandidate
  rw [h, regexArrayMatch_skip a (b ++ ']' :: c) ha, lastSplitAtClose_last b c hc]

/-- Claim C7, witness: the spec's concrete example — fenced JSON with
prose on both sides — extracts to exactly the bracketed array. -/
theorem c7_witness : extractCandidate c7in.data = c7out.data := by
  have h := c7_thm c7in.data c7a.data c7b.data c7c.data (by decide) (by decide) (by decide)
  rw [h]
  decide

/-- Claim C8: when the fence-stripped, trimmed text contains no
bracketed array substring (no `'['` with a `']'` after it), the
extractor returns that text unchanged — in particular it never
substitutes `"[]"` — so malformed output reaches the parser and fails
there instead of masquerading as an empty evaluation. -/
theorem c8_thm (s : List Char) (h : hasBracketPair (stripFences s) = false) :
    extractCandidate s = stripFences s := by
  unfold extractCandidate
  rw [regexArrayMatch_eq_none _ h]

/-- Claim C8, witness: a bracket-free reply passes through the
extractor untouched. -/
theorem c8_witness : extractCandidate c8ex.data = stripFences c8ex.data :=
  c8_thm c8ex.data (by decide)

/-- Claim C2, counterexample: a completion whose message exists but
carries no content is *not* reported as a service failure — line 71
substitutes `"[]"` for the missing content and the request succeeds
with an empty evaluation array, exactly the masking the claim rules
out. -/
theorem c2_counterexample :
    processCompletion c2comp = ApiResponse.ok (aggregate []) ∧
    processCompletion c2comp ≠ ApiResponse.noResponse := by
  decide

/-- Claim C2, amended: the service-failure error is returned only when
the completion, its `choices` field, or the first choice's `message`
object is missing; when the message exists but its content is missing
or empty, the code substitutes `"[]"` and returns a *successful* report
with an empty evaluation array. -/
theorem c2_amended :
    processCompletion none = ApiResponse.noResponse ∧
    (∀ cl : Completion, cl.choices = none →
      processCompletion (some cl) = ApiResponse.noResponse) ∧
    (∀ (ch : Choice) (rest : List Choice), ch.message = none →
      processCompletion (some { choices := some (ch :: rest) }) =
        ApiResponse.noResponse) ∧
    (∀ (m : Message) (rest : List Choice),
      m.content = none ∨ m.content = some [] →
      processCompletion (some { choices := some ({ message := some m } :: rest) }) =
        ApiResponse.ok (aggregate [])) := by
  refine ⟨rfl, ?_, ?_, ?_⟩
  · intro cl h
    show (match cl.choices with
      | none => ApiResponse.noResponse
      | some [] => ApiResponse.serverError
      | some (ch :: _) =>
        match ch.message with
        | none => ApiResponse.noResponse
        | some m => processMessage m) = ApiResponse.noResponse
    rw [h]
  · intro ch rest h
    show (match ch.message with
      | none => ApiResponse.noResponse
      | some m => processMessage m) = ApiResponse.noResponse
    rw [h]
  · intro m rest h
    show processMessage m = ApiResponse.ok (aggregate [])
    have hr : contentToRaw m.content = emptyArrStr.data := by
      rcases h with h | h <;> rw [h] <;> rfl
    unfold processMessage
    rw [hr]
    decide

/-- Claim C2, witness: the amended theorem at a concrete completion
whose message content is the empty string. -/
theorem c2_witness :
    processCompletion
        (some { choices := some [{ message := some { content := some [] } }] }) =
      ApiResponse.ok (aggregate []) :=
  c2_amended.2.2.2 { content := some [] } [] (Or.inr rfl)

/-- Claim C3, counterexample: the candidate `"5"` is syntactically
valid JSON whose value is not an array; `JSON.parse` succeeds, so the
parse-error branch is skipped, and `evaluations.forEach` then throws a
`TypeError` that surfaces as the *generic* failure — not the distinct
`ResponseParseError` the claim promises for non-array values. -/
theorem c3_counterexample :
    (jsonParse c3five.data).map isJsArr = some false ∧
    processCandidate c3five.data = ApiResponse.serverError ∧
    processCandidate c3five.data ≠ ApiResponse.parseError := by
  refine ⟨rfl, rfl, ?_⟩
  decide

/-- Claim C3, amended: a candidate on which deserialization fails with
a *syntax* error yields the distinct parse error; a candidate that
parses to a non-array value skips the parse error and ends in the
generic caught failure instead.  In both cases the fault is captured —
the result is always one of the structured responses. -/
theorem c3_amended (cand : List Char) :
    (jsonParse cand = none → processCandidate cand = ApiResponse.parseError) ∧
    (∀ v, jsonParse cand = some v → isJsArr v = false →
      processCandidate cand = ApiResponse.serverError ∧
      processCandidate cand ≠ ApiResponse.parseError) := by
  constructor
  · intro h
    simp [processCandidate, h]
  · intro v hv harr
    cases v with
    | arr xs => simp [isJsArr] at harr
    | null => simp [processCandidate, hv]
    | bool b => simp [processCandidate, hv]
    | num q => simp [processCandidate, hv]
    | str s => simp [processCandidate, hv]
    | obj kvs => simp [processCandidate, hv]

/-- Claim C3, witness: the amended theorem at the spec's malformed
candidate `"[{bad json"` (parse error) and at the valid non-array
candidate `"5"` (generic failure). -/
theorem c3_witness :
    processCandidate c3bad.data = ApiResponse.parseError ∧
    processCandidate c3five.data = ApiResponse.serverError := by
  constructor
  · exact (c3_amended c3bad.data).1 rfl
  · cases hJ : jsonParse c3five.data with
    | none =>
      have hs : (jsonParse c3five.data).isSome = true := rfl
      rw [hJ] at hs
      simp at hs
    | some v =>
      have hm : (jsonParse c3five.data).map isJsArr = some false := rfl
      rw [hJ, Option.map_some'] at hm
      exact ((c3_amended c3five.data).2 v hJ (Option.some.inj hm)).1

/-- Claim C5, counterexample: the tie between the labels `"b"` (first
encountered) and `"2"` is broken in favour of `"2"`, because
`Object.entries` lists array-index-like keys first; the claim's
first-encountered rule would pick `"b"`. -/
theorem c5_counterexample :
    bloomCounts [c5b, c5two] = [(['b'], 1), (['2'], 1)] ∧
    (aggregate [c5b, c5two]).bloomLevel = ['2'] ∧
    (aggregate [c5b, c5two]).bloomLevel ≠ ['b'] := by
  refine ⟨rfl, by decide, by decide⟩

/-- Claim C5, amended: provided no bloom label is an array-index-like
string (`Object.entries` then preserves insertion order) and no bloom
label is an own property name of `Object.prototype` (the labels on
which a plain object is not a dictionary: the count would be corrupted
to a string, or the `__proto__` write silently discarded — see the
note at `BloomMap`), the reported dominant label is the highest-count
label with ties broken by first encounter, falsy labels are excluded
from the tally (inside `bloomCounts`), and the sentinel `"N/A"` is
reported when no evaluation carries a label — i.e. the code agrees
with the spec-side `firstMaxLabel`.  The `isProtoKey` hypothesis is a
model-faithfulness side condition: it is what confines the statement
to inputs on which `bumpCount` is the behaviour of the real object,
which is why the Lean proof itself does not consume it. -/
theorem c5_amended (evals : List QEval)
    (h : ∀ q ∈ evals, isArrayIdx q.bloom = false ∧ isProtoKey q.bloom = false) :
    (aggregate evals).bloomLevel = firstMaxLabel (bloomCounts evals) := by
  have hkeys : ∀ p ∈ bloomCounts evals, isArrayIdx p.1 = false ∧ p.1 ≠ [] := by
    refine bloomCounts_fold_inv (fun k => isArrayIdx k = false ∧ k ≠ []) evals [] ?_ ?_
    · intro p hp
      exact absurd hp (List.not_mem_nil p)
    · intro q hq hb
      exact ⟨(h q hq).1, hb⟩
  have hobj : objEntries (bloomCounts evals) = bloomCounts evals :=
    objEntries_id _ fun p hp => (hkeys p hp).1
  show mostCommonBloom (bloomCounts evals) = firstMaxLabel (bloomCounts evals)
  unfold mostCommonBloom
  rw [hobj]
  cases hm : bloomCounts evals with
  | nil => rfl
  | cons p rest =>
    obtain ⟨t, ht⟩ := sortDesc_cons p rest
    rw [ht]
    have hne : (fmGo p rest).1 ≠ [] := by
      have hmem : fmGo p rest ∈ p :: rest := fmGo_mem p rest
      rw [← hm] at hmem
      exact (hkeys _ hmem).2
    simp only [firstMaxLabel]
    rw [if_neg hne]

/-- Claim C5, witness: the amended theorem at a concrete two-element
evaluation list with the repeated label `"Apply"`, which is neither
array-index-like nor a prototype member name. -/
theorem c5_witness :
    (aggregate c6evals).bloomLevel = firstMaxLabel (bloomCounts c6evals) :=
  c5_amended c6evals (by decide)

/-- Claim C6: for a non-empty evaluation list with numeric score
fields, each of the four averaged metrics is the field's sum divided by
`n`, rounded to the nearest integer with halves rounding up
(`jsRound`), and `overallScore`'s average is `totalScore`. -/
theorem c6_thm (evals : List QEval) (hne : evals ≠ [])
    (hnum : ∀ q ∈ evals, (q.overallScore).isSome ∧ (q.spellingScore).isSome ∧
      (q.grammarScore).isSome ∧ (q.clarityScore).isSome) :
    (aggregate evals).totalScore =
      some (jsRound (sumVals QEval.overallScore evals / (evals.length : ℚ))) ∧
    (aggregate evals).spelling =
      some (jsRound (sumVals QEval.spellingScore evals / (evals.length : ℚ))) ∧
    (aggregate evals).grammar =
      some (jsRound (sumVals QEval.grammarScore evals / (evals.length : ℚ))) ∧
    (aggregate evals).clarity =
      some (jsRound (sumVals QEval.clarityScore evals / (evals.length : ℚ))) := by
  refine ⟨?_, ?_, ?_, ?_⟩
  · exact jsAvg_sumField QEval.overallScore evals hne fun q hq => (hnum q hq).1
  · exact jsAvg_sumField QEval.spellingScore evals hne fun q hq => (hnum q hq).2.1
  · exact jsAvg_sumField QEval.grammarScore evals hne fun q hq => (hnum q hq).2.2.1
  · exact jsAvg_sumField QEval.clarityScore evals hne fun q hq => (hnum q hq).2.2.2

/-- Claim C6, witness: the spec's concrete pair — overall scores 80 and
60, both bloom `"Apply"`, higher-order true and false — yields
`totalScore = 70`, Bloom Level `"Apply"` and Higher Order `50`, and
instantiates the general averaging theorem. -/
theorem c6_witness :
    (aggregate c6evals).totalScore = some 70 ∧
    (aggregate c6evals).bloomLevel = bloomApply.data ∧
    (aggregate c6evals).higherOrderPct = some 50 ∧
    ((aggregate c6evals).totalScore =
      some (jsRound (sumVals QEval.overallScore c6evals / (c6evals.length : ℚ))) ∧
     (aggregate c6evals).spelling =
      some (jsRound (sumVals QEval.spellingScore c6evals / (c6evals.length : ℚ))) ∧
     (aggregate c6evals).grammar =
      some (jsRound (sumVals QEval.grammarScore c6evals / (c6evals.length : ℚ))) ∧
     (aggregate c6evals).clarity =
      some (jsRound (sumVals QEval.clarityScore c6evals / (c6evals.length : ℚ)))) := by
  refine ⟨?_, by decide, ?_, c6_thm c6evals (by decide) (by decide)⟩
  · show jsAvg c6evals.length (sumField QEval.overallScore c6evals) = some 70
    have hs : sumField QEval.overallScore c6evals = some (0 + 80 + 60) := rfl
    rw [hs]
    show some (jsRound ((0 + 80 + 60 : ℚ) / (2 : ℚ))) = some 70
    rw [jsRound_div_eq _ 141 2 (by norm_num)]
    decide
  · show some (jsRound (((1 : ℕ) : ℚ) / ((2 : ℕ) : ℚ) * 100)) = some 50
    rw [jsRound_div_eq _ 101 2 (by norm_num)]
    decide
